import Mathlib

/-!
Shallow embedding of `decompress_hirgc.cpp` (HIRGC reference-based genome
decompressor).  Sequences are lists of characters, C++ `int` values are
modelled as `Int`, and C++ `vector` subscripting with an `int` index is
modelled by `intGet?` / `intGetD` (a negative or past-the-end index has no
defined value in the C++ program, so the checked variant returns `none`).
Counted `for` loops of the form `for (int i = 0; i < n; ++i)` execute
`n.toNat` times, which matches the C++ semantics of a possibly non-positive
bound.
-/

namespace Hirgc

/-- `KMER_LENGTH` constant from the source (line 9). -/
def KMER_LENGTH : Int := 20

/-- `decode_into_base` table from the source (line 10). -/
def decode_into_base : List Char := ['A', 'C', 'G', 'T']

/-- C++ `vector` subscripting with an `int` index, checked: `none` models an
out-of-bounds access (undefined behaviour in the C++ program). -/
def intGet? {α : Type} (l : List α) (i : Int) : Option α :=
  if 0 ≤ i then l.get? i.toNat else none

/-- C++ `vector` subscripting with an `int` index, total variant: out of
bounds yields the supplied default (used where the read value is irrelevant
or guarded by hypotheses that keep it in bounds). -/
def intGetD {α : Type} (l : List α) (i : Int) (d : α) : α :=
  (intGet? l i).getD d

/-- C++ `c - '0'` on a `char`, as an `Int`. -/
def cppDigit (c : Char) : Int := (c.toNat : Int) - 48

/-- The `Mismatch` struct from the source (lines 17-21). -/
structure Mismatch where
  mismatched_bases : List Int
  offset_from_prev : Int
  continue_for : Int
deriving Repr, DecidableEq

/-!  ## Edit-script parsing (`load_mismatch_data`, lines 192-241) -/

/-- A mismatch record as actually produced by `load_mismatch_data`:
`offset_from_prev` is `none` when the loop over the second line never met a
space, in which case the C++ member `mismatch.offset_from_prev` is left
uninitialized. -/
structure ParsedMismatch where
  mismatched_bases : List Int
  offset_from_prev : Option Int
  continue_for : Int
deriving Repr, DecidableEq

/-- Loop state of the second-line parse (source lines 221-236): the digit
accumulator `pos`, the sign flag `mult`, and the value assigned so far to
`offset_from_prev` (`none` = still uninitialized). -/
structure Line2State where
  pos : Int
  mult : Int
  offset : Option Int
deriving Repr, DecidableEq

/-- One iteration of the loop over the second line of a pair
(source lines 224-236). -/
def line2Step (st : Line2State) (c : Char) : Line2State :=
  if c = '-' then { st with mult := -1 }
  else if c = ' ' then { st with offset := some st.pos, pos := 0 }
  else { st with pos := st.pos * 10 + st.mult * cppDigit c }

/-- Parse the second line of an edit-script pair (source lines 221-236). -/
def parse_line2 (line : List Char) : Line2State :=
  line.foldl line2Step { pos := 0, mult := 1, offset := none }

/-- Build one `ParsedMismatch` from a pair of body lines
(source lines 215-238); `continue_for` is `pos * mult` (line 238). -/
def mismatch_of_pair (l1 l2 : List Char) : ParsedMismatch :=
  { mismatched_bases := l1.map cppDigit
  , offset_from_prev := (parse_line2 l2).offset
  , continue_for := (parse_line2 l2).pos * (parse_line2 l2).mult }

/-- `load_mismatch_data` over the body lines of the compressed file
(source lines 214-240).  A trailing unpaired line is consumed with an empty
second line, exactly as the failed `getline` at line 220 leaves `temp`
cleared. -/
def load_mismatch_data : List (List Char) → List ParsedMismatch
  | [] => []
  | l1 :: [] => [mismatch_of_pair l1 []]
  | l1 :: l2 :: rest => mismatch_of_pair l1 l2 :: load_mismatch_data rest

/-!  ## Metadata parsing (`load_metadata`, lines 84-190) -/

/-- `temp[0]` of a `std::string`: for the empty string this is the null
terminator (value 0), which C++ defines for `operator[]` at index `size()`. -/
def cppFirstChar (line : List Char) : Int :=
  match line with
  | [] => 0
  | c :: _ => (c.toNat : Int)

/-- The accumulate-digits-until-space loop shared by the header list lines
(source lines 109-119 and repetitions): a space flushes the accumulator,
the end of the line flushes the final value. -/
def parse_int_list_go : List Char → Int → List Int
  | [], curr => [curr]
  | c :: rest, curr =>
    if c = ' ' then curr :: parse_int_list_go rest 0
    else parse_int_list_go rest (curr * 10 + cppDigit c)

/-- Parse one delimited integer-list header line
(source lines 106-119, 122-135, 138-151): `curr` starts as `temp[0] - '0'`
and the loop runs from index 1. -/
def parse_int_list (line : List Char) : List Int :=
  parse_int_list_go (line.drop 1) (cppFirstChar line - 48)

/-- `temp.rfind(' ') + 1` (source line 155): position one past the last
space, or 0 when there is no space (`npos + 1` wraps to 0). -/
def rfindSpace : List Char → Option Nat
  | [] => none
  | c :: rest =>
    match rfindSpace rest with
    | some i => some (i + 1)
    | none => if c = ' ' then some 0 else none

def order_list_start (line : List Char) : Nat :=
  match rfindSpace line with
  | some i => i + 1
  | none => 0

/-- First sub-list of the special-character line (source lines 156-168):
the delimited-integer loop runs over indices `1 ≤ i < order_list_start`. -/
def parse_special_list (line : List Char) : List Int :=
  parse_int_list_go ((line.take (order_list_start line)).drop 1)
    (cppFirstChar line - 48)

/-- Digit-per-character order list (source lines 170-173). -/
def parse_special_order (line : List Char) : List Int :=
  (line.drop (order_list_start line)).map cppDigit

/-- Final metadata line loop (source lines 176-189): a space stores the
accumulator into `ref_seq_position` (initialized 0) and resets it; the value
left at the end of the line becomes `first_continue_for`. -/
def parse_final_go : List Char → Int → Int → Int × Int
  | [], rp, curr => (rp, curr)
  | c :: rest, rp, curr =>
    if c = ' ' then parse_final_go rest curr 0
    else parse_final_go rest rp (curr * 10 + cppDigit c)

def parse_final_line (line : List Char) : Int × Int :=
  parse_final_go line 0 0

/-- The parsed metadata: the global variables filled in by `load_metadata`
(source lines 25-33). -/
structure Metadata where
  header : List Char
  line_lenghts : List Int
  lower_case_ranges : List Int
  n_ranges : List Int
  special_chars : List Int
  special_chars_order : List Int
  ref_seq_position : Int
  first_continue_for : Int
deriving Repr, DecidableEq

/-- `load_metadata` over the first seven lines of the compressed file
(source lines 84-190).  A missing line behaves as an empty one because a
failed `getline` clears the string. -/
def load_metadata (lines : List (List Char)) : Metadata :=
  { header := lines.getD 0 []
  , line_lenghts := parse_int_list (lines.getD 2 [])
  , lower_case_ranges := parse_int_list (lines.getD 3 [])
  , n_ranges := parse_int_list (lines.getD 4 [])
  , special_chars := parse_special_list (lines.getD 5 [])
  , special_chars_order := parse_special_order (lines.getD 5 [])
  , ref_seq_position := (parse_final_line (lines.getD 6 [])).1
  , first_continue_for := (parse_final_line (lines.getD 6 [])).2 }

/-!  ## Reconstruction engine (`decompress_target_sequence`, lines 243-269)

The engine state is the growing output plus the reference cursor
(`ref_seq_position`).  Every reference read goes through `intGet?`: a read
at a negative or past-the-end index (which the C++ program performs with no
bounds check, i.e. undefined behaviour) makes the whole run return `none`.
-/

structure DState where
  out : List Char
  pos : Int
deriving Repr, DecidableEq

/-- The copy loop `for (int i = 0; i < n; ++i) { push_back(ref[pos]); pos++ }`
(source lines 251-254 and 264-267), with `n.toNat` iterations. -/
def copyFromRef (ref : List Char) : Nat → DState → Option DState
  | 0, st => some st
  | n + 1, st =>
    match intGet? ref st.pos with
    | none => none
    | some c => copyFromRef ref n { out := st.out ++ [c], pos := st.pos + 1 }

/-- The literal-run loop (source lines 258-260): decode each base code via
`decode_into_base` and append it; the reference cursor is not touched. -/
def pushLiterals : List Int → DState → Option DState
  | [], st => some st
  | b :: rest, st =>
    match intGet? decode_into_base b with
    | none => none
    | some c => pushLiterals rest { st with out := st.out ++ [c] }

/-- One iteration of the mismatch loop (source lines 256-268): literal run,
cursor jump by `offset_from_prev`, then copy `continue_for + KMER_LENGTH`
bases. -/
def processMismatch (ref : List Char) (st : DState) (m : Mismatch) :
    Option DState :=
  match pushLiterals m.mismatched_bases st with
  | none => none
  | some st1 =>
      copyFromRef ref (m.continue_for + KMER_LENGTH).toNat
        { st1 with pos := st1.pos + m.offset_from_prev }

/-- The `for (Mismatch& mismatch : mismatch_data)` loop (lines 256-268). -/
def mismatchLoop (ref : List Char) : List Mismatch → DState → Option DState
  | [], st => some st
  | m :: ms, st =>
    match processMismatch ref st m with
    | none => none
    | some st1 => mismatchLoop ref ms st1

/-- `decompress_target_sequence` (source lines 243-269): initial copy of
`first_continue_for + KMER_LENGTH` bases from `ref_seq_position`, then the
mismatch loop. -/
def decompress_target_sequence (ref : List Char)
    (ref_seq_position first_continue_for : Int)
    (mismatch_data : List Mismatch) : Option DState :=
  match copyFromRef ref (first_continue_for + KMER_LENGTH).toNat
      { out := [], pos := ref_seq_position } with
  | none => none
  | some st0 => mismatchLoop ref mismatch_data st0

/-!  ## Overlay passes (lines 271-354) -/

/-- `target_seq.insert(target_seq.begin() + p, c)` with an `int` position:
a negative position has no defined meaning in the C++ program; the total
model leaves the sequence unchanged there (claims about insertions are
stated in-bounds). -/
def listInsert (seq : List Char) (p : Int) (c : Char) : List Char :=
  if 0 ≤ p then seq.insertIdx p.toNat c else seq

/-- The position-building loop of `add_special_characters`
(source lines 286-291): `pos += special_chars[i]; push pos; pos += 1`,
for `i` running from 1 up to `special_char_num`. -/
def positionsLoop (sc : List Int) : Nat → Int → Int → List Int
  | 0, _, _ => []
  | n + 1, i, pos =>
    let p := pos + intGetD sc i 0
    p :: positionsLoop sc n (i + 1) (p + 1)

/-- The dictionary-decoding loop (source lines 294-297):
`special_chars[i] + 'A'` for the `unique_special_chars_num` entries that
follow the gap list. -/
def decodeLoop (sc : List Int) : Nat → Int → List Char
  | 0, _ => []
  | n + 1, i =>
    Char.ofNat (intGetD sc i 0 + 65).toNat :: decodeLoop sc n (i + 1)

/-- The insertion loop (source lines 300-303): for each index `i` into the
order list, insert `decoded[order[i]]` at `positions[i]` into the current
sequence, left to right. -/
def insertLoop (positions : List Int) (decoded : List Char) :
    List Int → Nat → List Char → List Char
  | [], _, seq => seq
  | o :: os, i, seq =>
    insertLoop positions decoded os (i + 1)
      (listInsert seq (positions.getD i 0) (intGetD decoded o 'A'))

/-- The positions computed by `add_special_characters` (lines 286-291). -/
def special_positions (sc : List Int) : List Int :=
  positionsLoop sc (intGetD sc 0 0).toNat 1 0

/-- The decoded dictionary computed by `add_special_characters`
(lines 294-297). -/
def special_dictionary (sc : List Int) : List Char :=
  decodeLoop sc (intGetD sc (intGetD sc 0 0 + 1) 0).toNat (intGetD sc 0 0 + 2)

/-- `add_special_characters` (source lines 271-304), total model: the value
read at `special_chars[special_char_num + 1]` (line 277) is fetched before
the zero test but is unused on the early-return path. -/
def add_special_characters (special_chars special_chars_order : List Int)
    (target_seq : List Char) : List Char :=
  let special_char_num : Int := intGetD special_chars 0 0
  if special_char_num = 0 then target_seq
  else
    insertLoop (special_positions special_chars)
      (special_dictionary special_chars) special_chars_order 0 target_seq

/-- `add_special_characters` with the two leading vector reads of source
lines 276-277 made bounds-explicit, in source order: `special_chars[0]` is
read first, then `special_chars[special_char_num + 1]`, and only then is the
zero test performed.  `none` marks an out-of-bounds access. -/
def add_special_characters_checked (special_chars special_chars_order : List Int)
    (target_seq : List Char) : Option (List Char) :=
  match intGet? special_chars 0 with
  | none => none
  | some special_char_num =>
    match intGet? special_chars (special_char_num + 1) with
    | none => none
    | some _ =>
      some (add_special_characters special_chars special_chars_order target_seq)

/-- The inner `'N'`-insertion loop of `add_n_ranges` (source lines 323-325):
`length` insertions at positions `j + start + prev_pos`, `j = 0, 1, ...`. -/
def insertNsLoop (startPrev : Int) : Nat → Int → List Char → List Char
  | 0, _, seq => seq
  | n + 1, j, seq =>
    insertNsLoop startPrev n (j + 1) (listInsert seq (j + startPrev) 'N')

/-- The outer pair loop of `add_n_ranges` (source lines 318-327). -/
def nRangesLoop (nr : List Int) : Nat → Int → Int → List Char → List Char
  | 0, _, _, seq => seq
  | n + 1, i, prev_pos, seq =>
    let start := intGetD nr i 0
    let len := intGetD nr (i + 1) 0
    nRangesLoop nr n (i + 2) (prev_pos + start + len)
      (insertNsLoop (start + prev_pos) len.toNat 0 seq)

/-- `add_n_ranges` (source lines 306-328). -/
def add_n_ranges (n_ranges : List Int) (target_seq : List Char) : List Char :=
  let n_ranges_num : Int := intGetD n_ranges 0 0
  if n_ranges_num = 0 then target_seq
  else nRangesLoop n_ranges n_ranges_num.toNat 1 0 target_seq

/-- `target_seq[p] = tolower(target_seq[p])` with an `int` index; out of
bounds the total model leaves the sequence unchanged. -/
def listSetLower (seq : List Char) (p : Int) : List Char :=
  if 0 ≤ p then seq.set p.toNat (seq.getD p.toNat 'A').toLower else seq

/-- The inner loop of `add_lowercase_ranges` (source lines 347-350). -/
def lowerInner (startPrev : Int) : Nat → Int → List Char → List Char
  | 0, _, seq => seq
  | n + 1, j, seq =>
    lowerInner startPrev n (j + 1) (listSetLower seq (j + startPrev))

/-- The outer pair loop of `add_lowercase_ranges` (source lines 342-353). -/
def lcLoop (lc : List Int) : Nat → Int → Int → List Char → List Char
  | 0, _, _, seq => seq
  | n + 1, i, prev_pos, seq =>
    let start := intGetD lc i 0
    let len := intGetD lc (i + 1) 0
    lcLoop lc n (i + 2) (prev_pos + start + len)
      (lowerInner (start + prev_pos) len.toNat 0 seq)

/-- `add_lowercase_ranges` (source lines 330-354). -/
def add_lowercase_ranges (lower_case_ranges : List Int)
    (target_seq : List Char) : List Char :=
  let num : Int := intGetD lower_case_ranges 0 0
  if num = 0 then target_seq
  else lcLoop lower_case_ranges num.toNat 1 0 target_seq

/-!  ## Spec-side auxiliary definitions -/

/-- Plain left-to-right decimal value of a digit string (used to state what
the edit-script number parser computes). -/
def digitsVal (d : List Char) : Int :=
  d.foldl (fun a c => a * 10 + cppDigit c) 0

/-- Concrete reference used by the examples: `"ACGT"` repeated. -/
def refOfLen4Blocks (k : Nat) : List Char :=
  (List.replicate k ['A', 'C', 'G', 'T']).flatten

/-- Sum of the `m` gap values `sc[i], sc[i+1], ..., sc[i+m-1]` (used to
characterize the positions computed by `add_special_characters`). -/
def gapSum (sc : List Int) (i : Int) : Nat → Int
  | 0 => 0
  | m + 1 => gapSum sc i m + intGetD sc (i + (m : Int)) 0

/-!  ## Helper lemmas about the reconstruction engine -/

theorem intGet?_eq_some {α : Type} (l : List α) (i : Int)
    (h0 : 0 ≤ i) (hlt : i.toNat < l.length) :
    intGet? l i = some (l.get ⟨i.toNat, hlt⟩) := by
  simp [intGet?, h0, List.get?_eq_get hlt]

theorem copyFromRef_spec (ref : List Char) :
    ∀ (n : Nat) (st : DState), 0 ≤ st.pos →
      st.pos.toNat + n ≤ ref.length →
      copyFromRef ref n st =
        some { out := st.out ++ (ref.drop st.pos.toNat).take n
             , pos := st.pos + (n : Int) } := by
  intro n
  induction n with
  | zero => intro st h0 hn; simp [copyFromRef]
  | succ n ih =>
    intro st h0 hn
    have hlt : st.pos.toNat < ref.length := by omega
    have hdrop : ref.drop st.pos.toNat =
        ref.get ⟨st.pos.toNat, hlt⟩ :: ref.drop (st.pos.toNat + 1) := by
      rw [List.get_eq_getElem]
      exact List.drop_eq_getElem_cons hlt
    have h1 : (0 : Int) ≤ st.pos + 1 := by omega
    have h2 : (st.pos + 1).toNat = st.pos.toNat + 1 := by omega
    have hside : (st.pos + 1).toNat + n ≤ ref.length := by omega
    have := ih { out := st.out ++ [ref.get ⟨st.pos.toNat, hlt⟩]
               , pos := st.pos + 1 } h1 hside
    simp only [copyFromRef, intGet?_eq_some ref st.pos h0 hlt]
    rw [this, hdrop]
    simp [h2, List.append_assoc]
    constructor
    · rw [hdrop, List.take_succ_cons]
      simp
    · omega

theorem copyFromRef_some (ref : List Char) :
    ∀ (n : Nat) (st st2 : DState), copyFromRef ref n st = some st2 →
      st2.out.length = st.out.length + n ∧ st2.pos = st.pos + (n : Int) := by
  intro n
  induction n with
  | zero => intro st st2 h; simp [copyFromRef] at h; simp [← h]
  | succ n ih =>
    intro st st2 h
    simp only [copyFromRef] at h
    cases hg : intGet? ref st.pos with
    | none => rw [hg] at h; exact absurd h (by simp)
    | some c =>
      rw [hg] at h
      have := ih _ _ h
      constructor
      · simp at this; omega
      · have := this.2; simp at this; omega

theorem pushLiterals_some :
    ∀ (bs : List Int) (st st2 : DState), pushLiterals bs st = some st2 →
      st2.pos = st.pos ∧
      ∃ cs : List Char, st2.out = st.out ++ cs ∧ cs.length = bs.length := by
  intro bs
  induction bs with
  | nil =>
    intro st st2 h
    simp [pushLiterals] at h
    exact ⟨by simp [← h], [], by simp [← h], rfl⟩
  | cons b rest ih =>
    intro st st2 h
    simp only [pushLiterals] at h
    cases hg : intGet? decode_into_base b with
    | none => rw [hg] at h; exact absurd h (by simp)
    | some c =>
      rw [hg] at h
      obtain ⟨hpos, cs, hout, hlen⟩ := ih _ _ h
      refine ⟨by simpa using hpos, c :: cs, ?_, by simp [hlen]⟩
      simpa [List.append_assoc] using hout

theorem pushLiterals_map :
    ∀ (bs : List Int) (st : DState), (∀ b ∈ bs, 0 ≤ b ∧ b < 4) →
      pushLiterals bs st =
        some { out := st.out ++ bs.map (fun b => intGetD decode_into_base b 'A')
             , pos := st.pos } := by
  intro bs
  induction bs with
  | nil => intro st _; simp [pushLiterals]
  | cons b rest ih =>
    intro st hb
    have hb0 : 0 ≤ b := (hb b (by simp)).1
    have hb4 : b < 4 := (hb b (by simp)).2
    have hlt : b.toNat < decode_into_base.length := by
      simp [decode_into_base]; omega
    have hget := intGet?_eq_some decode_into_base b hb0 hlt
    have hgetD : intGetD decode_into_base b 'A' =
        decode_into_base.get ⟨b.toNat, hlt⟩ := by
      simp [intGetD, hget]
    have := ih { st with out := st.out ++ [decode_into_base.get ⟨b.toNat, hlt⟩] }
      (fun x hx => hb x (by simp [hx]))
    simp only [pushLiterals, hget, this]
    simp [List.append_assoc, hgetD]

theorem processMismatch_spec (ref : List Char) (st : DState) (m : Mismatch)
    (hb : ∀ b ∈ m.mismatched_bases, 0 ≤ b ∧ b < 4)
    (h0 : 0 ≤ st.pos + m.offset_from_prev)
    (hn : (st.pos + m.offset_from_prev).toNat +
        (m.continue_for + KMER_LENGTH).toNat ≤ ref.length) :
    processMismatch ref st m =
      some { out := st.out ++
              m.mismatched_bases.map (fun b => intGetD decode_into_base b 'A') ++
              (ref.drop (st.pos + m.offset_from_prev).toNat).take
                (m.continue_for + KMER_LENGTH).toNat
           , pos := st.pos + m.offset_from_prev +
              ((m.continue_for + KMER_LENGTH).toNat : Int) } := by
  simp only [processMismatch, pushLiterals_map m.mismatched_bases st hb]
  have := copyFromRef_spec ref (m.continue_for + KMER_LENGTH).toNat
    { out := st.out ++ m.mismatched_bases.map (fun b => intGetD decode_into_base b 'A')
    , pos := st.pos + m.offset_from_prev } h0 (by simpa using hn)
  simpa using this

theorem processMismatch_len (ref : List Char) (st st2 : DState) (m : Mismatch)
    (h : processMismatch ref st m = some st2) :
    st2.out.length = st.out.length + m.mismatched_bases.length +
      (m.continue_for + KMER_LENGTH).toNat := by
  simp only [processMismatch] at h
  cases hp : pushLiterals m.mismatched_bases st with
  | none => rw [hp] at h; exact absurd h (by simp)
  | some st1 =>
    rw [hp] at h
    obtain ⟨_, cs, hout, hlen⟩ := pushLiterals_some m.mismatched_bases st st1 hp
    have hc := (copyFromRef_some ref (m.continue_for + KMER_LENGTH).toNat _ _ h).1
    simp at hc
    rw [hc, hout]
    simp [hlen]

theorem mismatchLoop_len (ref : List Char) :
    ∀ (ms : List Mismatch) (st st2 : DState),
      mismatchLoop ref ms st = some st2 →
      st2.out.length = st.out.length +
        (ms.map (fun m => m.mismatched_bases.length +
          (m.continue_for + KMER_LENGTH).toNat)).sum := by
  intro ms
  induction ms with
  | nil => intro st st2 h; simp [mismatchLoop] at h; simp [← h]
  | cons m rest ih =>
    intro st st2 h
    simp only [mismatchLoop] at h
    cases hp : processMismatch ref st m with
    | none => rw [hp] at h; exact absurd h (by simp)
    | some st1 =>
      rw [hp] at h
      have h1 := processMismatch_len ref st st1 m hp
      have h2 := ih st1 st2 h
      rw [h2, h1]
      simp
      omega

/-!  ## The claims about the reconstruction engine -/

/-- Claim C2, status code_bug.  The claim says a crafted input whose copy
range leaves the reference raises a fatal BoundsError; the program indexes
`ref_seq` with unchecked `vector::operator[]` (source lines 252 and 265) and
has no error branch at all, so the out-of-range read is undefined
behaviour.  Evaluating the engine at the failing input (a 4-base reference
with initial offset 0 and initial run length 0) shows the very first copy
step already reads past the reference: the bounds-checked model reports the
out-of-range access that the program performs unchecked. -/
theorem c2_first_copy_reads_past_reference :
    decompress_target_sequence (refOfLen4Blocks 1) 0 0 [] = none := by decide

/-- Claim C4, counterexample.  The claim's own example uses the 24-base
reference `"ACGTACGTACGTACGTACGTACGT"`: after the initial 20-base run the
cursor is 20, and the mismatch's continue run needs 20 further bases, i.e.
reference positions 20..39 — past the end of the 24-base reference.  The
claimed copy of 20 more bases from the reference therefore does not happen
on valid reads. -/
theorem c4_example_reads_out_of_range :
    decompress_target_sequence (refOfLen4Blocks 6) 0 0
      [{ mismatched_bases := [0], offset_from_prev := 0, continue_for := 0 }] =
      none := by decide

/-- Claim C4, amended.  (1) The initial step emits
`first_continue_for + KMER_LENGTH` bases copied from the reference starting
at the initial offset and advances the cursor by the same amount;
(2) each mismatch appends its decoded literal bases (cursor untouched),
advances the cursor by `offset_from_prev`, and copies
`continue_for + KMER_LENGTH` bases from the advanced cursor, advancing it by
the same amount — all under the hypothesis that the copied range lies inside
the reference and the base codes are in 0..3;
(3) the example holds once the reference is long enough: with `"ACGT"`
repeated 11 times (44 bases), initial offset 0 and initial run length 0, the
first run is the 20 bases `"ACGTACGTACGTACGTACGT"`, and the mismatch
`⟨[0], 0, 0⟩` appends `'A'` and then copies 20 more bases from the unchanged
cursor 20. -/
theorem c4_reconstruction_steps :
    (∀ (ref : List Char) (p0 first : Int), 0 ≤ p0 →
        p0.toNat + (first + KMER_LENGTH).toNat ≤ ref.length →
        copyFromRef ref (first + KMER_LENGTH).toNat { out := [], pos := p0 } =
          some { out := (ref.drop p0.toNat).take (first + KMER_LENGTH).toNat
               , pos := p0 + (((first + KMER_LENGTH).toNat : Nat) : Int) })
    ∧ (∀ (ref : List Char) (st : DState) (m : Mismatch),
        (∀ b ∈ m.mismatched_bases, 0 ≤ b ∧ b < 4) →
        0 ≤ st.pos + m.offset_from_prev →
        (st.pos + m.offset_from_prev).toNat +
            (m.continue_for + KMER_LENGTH).toNat ≤ ref.length →
        processMismatch ref st m =
          some { out := st.out ++
                  m.mismatched_bases.map (fun b => intGetD decode_into_base b 'A') ++
                  (ref.drop (st.pos + m.offset_from_prev).toNat).take
                    (m.continue_for + KMER_LENGTH).toNat
               , pos := st.pos + m.offset_from_prev +
                  (((m.continue_for + KMER_LENGTH).toNat : Nat) : Int) })
    ∧ decompress_target_sequence (refOfLen4Blocks 11) 0 0
        [{ mismatched_bases := [0], offset_from_prev := 0, continue_for := 0 }] =
        some { out := (refOfLen4Blocks 11).take 20 ++ ['A'] ++
                ((refOfLen4Blocks 11).drop 20).take 20
             , pos := 40 } := by
  refine ⟨?_, ?_, by decide⟩
  · intro ref p0 first h0 hn
    simpa using copyFromRef_spec ref (first + KMER_LENGTH).toNat
      { out := [], pos := p0 } h0 hn
  · intro ref st m hb h0 hn
    exact processMismatch_spec ref st m hb h0 hn

/-- Witness for `c4_reconstruction_steps`: the initial-copy statement at the
44-base reference, offset 0, run length 0. -/
theorem c4_reconstruction_steps_witness :
    copyFromRef (refOfLen4Blocks 11) (((0 : Int) + KMER_LENGTH)).toNat
      { out := [], pos := 0 } =
      some { out := ((refOfLen4Blocks 11).drop (0 : Int).toNat).take
              ((0 : Int) + KMER_LENGTH).toNat
           , pos := 0 + ((((0 : Int) + KMER_LENGTH).toNat : Nat) : Int) } :=
  c4_reconstruction_steps.1 (refOfLen4Blocks 11) 0 0 (by decide) (by decide)

/-- Claim C8, status confirmed: while the literal run of a mismatch is
emitted (source lines 258-260), exactly `mismatched_bases.size()` characters
are appended to the output and the reference cursor is unchanged. -/
theorem c8_literal_run_frame :
    ∀ (m : Mismatch) (st st1 : DState),
      pushLiterals m.mismatched_bases st = some st1 →
      st1.pos = st.pos ∧
      st1.out.length = st.out.length + m.mismatched_bases.length ∧
      st1.out.take st.out.length = st.out := by
  intro m st st1 h
  obtain ⟨hpos, cs, hout, hlen⟩ := pushLiterals_some m.mismatched_bases st st1 h
  refine ⟨hpos, by simp [hout, hlen], by simp [hout]⟩

/-- Witness for `c8_literal_run_frame` at the mismatch `⟨[0], 0, 0⟩` run on
the state `⟨[], 5⟩`. -/
theorem c8_literal_run_frame_witness :
    (DState.mk ['A'] 5).pos = (DState.mk [] 5).pos ∧
    (DState.mk ['A'] 5).out.length =
      (DState.mk [] 5).out.length + ([0] : List Int).length ∧
    (DState.mk ['A'] 5).out.take (DState.mk [] 5).out.length =
      (DState.mk [] 5).out :=
  c8_literal_run_frame
    { mismatched_bases := [0], offset_from_prev := 0, continue_for := 0 }
    (DState.mk [] 5) (DState.mk ['A'] 5) (by decide)

/-- Claim C9, counterexample.  With reference `"A"`, initial offset 0,
initial run length −21 and an empty edit script, the engine completes with
all (zero) reads in range and produces an empty output, but the claimed
length `initial_run_length + 20` is −1: the copy loop executes
`max(initial_run_length + 20, 0)` times, not `initial_run_length + 20`. -/
theorem c9_length_formula_counterexample :
    decompress_target_sequence ['A'] 0 (-21) [] = some { out := [], pos := 0 } ∧
    (((DState.mk [] 0).out.length : Int) ≠ (-21) + 20) := by
  exact ⟨by decide, by decide⟩

/-- Claim C9, amended: whenever reconstruction completes, the raw output
length is `max(first_continue_for + 20, 0)` plus, over every mismatch,
`mismatched_bases.size() + max(continue_for + 20, 0)` (the `Int.toNat`
clamps matter only for degenerate negative run lengths, where the copy loops
run zero times). -/
theorem c9_output_length :
    ∀ (ref : List Char) (p0 first : Int) (ms : List Mismatch) (st : DState),
      decompress_target_sequence ref p0 first ms = some st →
      st.out.length = (first + KMER_LENGTH).toNat +
        (ms.map (fun m => m.mismatched_bases.length +
          (m.continue_for + KMER_LENGTH).toNat)).sum := by
  intro ref p0 first ms st h
  simp only [decompress_target_sequence] at h
  cases hc : copyFromRef ref (first + KMER_LENGTH).toNat
      { out := [], pos := p0 } with
  | none => rw [hc] at h; exact absurd h (by simp)
  | some st0 =>
    rw [hc] at h
    have h1 := (copyFromRef_some ref (first + KMER_LENGTH).toNat _ _ hc).1
    have h2 := mismatchLoop_len ref ms st0 st h
    simp at h1
    omega

/-- Witness for `c9_output_length`: a 24-base reference with offset 0, run
length 0 and no mismatches produces exactly 20 bases. -/
theorem c9_output_length_witness :
    (DState.mk (refOfLen4Blocks 5) 20).out.length =
      ((0 : Int) + KMER_LENGTH).toNat +
        (([] : List Mismatch).map (fun m => m.mismatched_bases.length +
          (m.continue_for + KMER_LENGTH).toNat)).sum :=
  c9_output_length (refOfLen4Blocks 6) 0 0 [] (DState.mk (refOfLen4Blocks 5) 20)
    (by decide)

/-!  ## Claims about parsing and the overlay passes -/

/-- Claim C3, status code_bug.  The claim (and the spec) demand a
FormatError on an unpaired trailing body line; `load_mismatch_data` instead
consumes the odd line as a pair whose second line is empty (the failed
`getline` at source line 220 clears `temp`), appending a record whose
`offset_from_prev` member is never assigned (modelled `none`; the C++ `int`
stays indeterminate) and whose `continue_for` is 0, and then terminates
normally.  A complete pair, by contrast, parses normally — the edit script
is silently extended by a half-initialized record, not rejected. -/
theorem c3_odd_trailing_line_no_failure :
    load_mismatch_data [['0']] =
      [{ mismatched_bases := [0], offset_from_prev := none, continue_for := 0 }] ∧
    load_mismatch_data [['0'], ['1', ' ', '2']] =
      [{ mismatched_bases := [0], offset_from_prev := some 1, continue_for := 2 }] :=
  ⟨by decide, by decide⟩

/-- Claim C6, counterexample.  A seven-line header whose third line is the
single non-digit character `'x'` (digits expected) is not rejected: the
parser produces a MetadataModel whose line-length list is `[72]`
(`'x' - '0'`), so no FormatError is possible — the program has no error
branch in `load_metadata` at all. -/
theorem c6_malformed_header_counterexample :
    (load_metadata [['H'], [], ['x'], ['0'], ['0'], ['0'],
        ['0', ' ', '0']]).line_lenghts = [72] := by decide

/-- Claim C6, amended: the header parser is total and never fails.  A line
that is absent or empty where digits are expected contributes the single
value −48 (the null character read at index 0, minus `'0'`), and a non-digit
character contributes its code point minus 48; no FormatError exists. -/
theorem c6_metadata_parse_total :
    ∀ (l1 l2 l4 l5 l6 l7 : List Char) (c : Char),
      (load_metadata [l1, l2, [], l4, l5, l6, l7]).line_lenghts = [-48] ∧
      (load_metadata [l1, l2, [c], l4, l5, l6, l7]).line_lenghts =
        [(c.toNat : Int) - 48] := by
  intro l1 l2 l4 l5 l6 l7 c
  constructor
  · simp [load_metadata, parse_int_list, parse_int_list_go, cppFirstChar]
  · simp [load_metadata, parse_int_list, parse_int_list_go, cppFirstChar,
      cppDigit]

/-- Claim C7, status confirmed: when the count at the head of the
special-character list, the N-range list and the lowercase-range list is
zero, each of the three overlay passes returns the sequence unchanged. -/
theorem c7_zero_counts_noop :
    ∀ (sc ord nr lc : List Int) (seq : List Char),
      intGetD sc 0 0 = 0 → intGetD nr 0 0 = 0 → intGetD lc 0 0 = 0 →
      add_lowercase_ranges lc
        (add_n_ranges nr (add_special_characters sc ord seq)) = seq := by
  intro sc ord nr lc seq h1 h2 h3
  simp [add_special_characters, add_n_ranges, add_lowercase_ranges, h1, h2, h3]

/-- Witness for `c7_zero_counts_noop` on the minimal zero-count lists. -/
theorem c7_zero_counts_noop_witness :
    add_lowercase_ranges [0]
      (add_n_ranges [0] (add_special_characters [0] [] ['X'])) = ['X'] :=
  c7_zero_counts_noop [0] [] [0] [0] ['X'] (by decide) (by decide) (by decide)

/-- Claim C10, status confirmed: `add_special_characters` reads
`special_chars[special_char_num + 1]` (source line 277) before testing
`special_char_num == 0` (line 281).  For the minimal zero-count list `[0]`
that access is at index 1, outside the single-element list — the checked
model reports it — even though the pass's visible effect on the sequence is
a no-op, as the total model shows. -/
theorem c10_precheck_reads_out_of_bounds :
    ∀ (ord : List Int) (seq : List Char),
      add_special_characters_checked [0] ord seq = none ∧
      add_special_characters [0] ord seq = seq := by
  intro ord seq
  constructor
  · simp [add_special_characters_checked, intGet?]
  · simp [add_special_characters, intGetD, intGet?]

/-- Claim C1, counterexample.  For the second line `"5 -3"` — of the exact
form `[-]digits " " [-]digits`, with a `-` preceding the second integer —
the claim requires `continue_for = -3`; the program produces
`offset_from_prev = 5` and `continue_for = 3`, because the final
`pos * mult` (source line 238) multiplies a digit accumulator that already
carries the sign by the sign flag again, cancelling it. -/
theorem c1_second_sign_cancelled :
    (mismatch_of_pair [] ['5', ' ', '-', '3']).offset_from_prev = some 5 ∧
    (mismatch_of_pair [] ['5', ' ', '-', '3']).continue_for = 3 ∧
    (3 : Int) ≠ -3 :=
  ⟨by decide, by decide, by decide⟩

/-!  ## The signed two-integer line parse, characterized -/

/-- A decimal digit character. -/
def isDigitChar (c : Char) : Prop := 48 ≤ c.toNat ∧ c.toNat ≤ 57

instance isDigitChar.dec : ∀ c, Decidable (isDigitChar c) := fun c =>
  inferInstanceAs (Decidable (48 ≤ c.toNat ∧ c.toNat ≤ 57))

theorem digit_ne_minus {c : Char} (h : isDigitChar c) : c ≠ '-' := by
  intro hc; subst hc; exact absurd h (by decide)

theorem digit_ne_space {c : Char} (h : isDigitChar c) : c ≠ ' ' := by
  intro hc; subst hc; exact absurd h (by decide)

theorem line2_foldl_digits :
    ∀ (d : List Char), (∀ c ∈ d, isDigitChar c) →
    ∀ (p m : Int) (o : Option Int),
      List.foldl line2Step { pos := p, mult := m, offset := o } d =
        { pos := List.foldl (fun a c => a * 10 + m * cppDigit c) p d
        , mult := m, offset := o } := by
  intro d
  induction d with
  | nil => intro _ p m o; rfl
  | cons c rest ih =>
    intro hd p m o
    have hc := hd c (by simp)
    have h1 : line2Step { pos := p, mult := m, offset := o } c =
        { pos := p * 10 + m * cppDigit c, mult := m, offset := o } := by
      simp [line2Step, digit_ne_minus hc, digit_ne_space hc]
    simp only [List.foldl_cons, h1]
    exact ih (fun x hx => hd x (by simp [hx])) _ m o

theorem foldl_mul_sign :
    ∀ (d : List Char) (m a : Int),
      List.foldl (fun x c => x * 10 + m * cppDigit c) (m * a) d =
        m * List.foldl (fun x c => x * 10 + cppDigit c) a d := by
  intro d
  induction d with
  | nil => intro m a; rfl
  | cons c rest ih =>
    intro m a
    simp only [List.foldl_cons]
    have h : m * a * 10 + m * cppDigit c = m * (a * 10 + cppDigit c) := by ring
    rw [h]
    exact ih m (a * 10 + cppDigit c)

theorem foldl_sign_zero (d : List Char) (m : Int) :
    List.foldl (fun x c => x * 10 + m * cppDigit c) 0 d = m * digitsVal d := by
  have h := foldl_mul_sign d m 0
  simpa [digitsVal] using h

theorem digitsVal_from_nonneg :
    ∀ (d : List Char), (∀ c ∈ d, isDigitChar c) → ∀ a : Int, 0 ≤ a →
      0 ≤ List.foldl (fun x c => x * 10 + cppDigit c) a d := by
  intro d
  induction d with
  | nil => intro _ a ha; simpa using ha
  | cons c rest ih =>
    intro hd a ha
    obtain ⟨hl, _⟩ := hd c (by simp)
    have hstep : (0 : Int) ≤ a * 10 + cppDigit c := by
      simp only [cppDigit]; omega
    simpa using ih (fun x hx => hd x (by simp [hx])) (a * 10 + cppDigit c) hstep

theorem digitsVal_nonneg (d : List Char) (hd : ∀ c ∈ d, isDigitChar c) :
    0 ≤ digitsVal d :=
  digitsVal_from_nonneg d hd 0 le_rfl

theorem parse_line2_signed (d1 d2 : List Char) (s1 s2 : Bool)
    (hd1 : ∀ c ∈ d1, isDigitChar c) (hd2 : ∀ c ∈ d2, isDigitChar c) :
    parse_line2 ((cond s1 ['-'] []) ++ d1 ++ [' '] ++ (cond s2 ['-'] []) ++ d2) =
      { pos := (cond (s1 || s2) (-1 : Int) 1) * digitsVal d2
      , mult := cond (s1 || s2) (-1 : Int) 1
      , offset := some ((cond s1 (-1 : Int) 1) * digitsVal d1) } := by
  unfold parse_line2
  rw [List.foldl_append, List.foldl_append, List.foldl_append, List.foldl_append]
  have e1 : List.foldl line2Step { pos := 0, mult := 1, offset := none }
      (cond s1 ['-'] []) =
      { pos := 0, mult := cond s1 (-1 : Int) 1, offset := none } := by
    cases s1 <;> rfl
  rw [e1, line2_foldl_digits d1 hd1, foldl_sign_zero]
  have e2 : List.foldl line2Step
      { pos := cond s1 (-1 : Int) 1 * digitsVal d1
      , mult := cond s1 (-1 : Int) 1, offset := none } [' '] =
      { pos := 0, mult := cond s1 (-1 : Int) 1
      , offset := some (cond s1 (-1 : Int) 1 * digitsVal d1) } := rfl
  rw [e2]
  have e3 : List.foldl line2Step
      { pos := 0, mult := cond s1 (-1 : Int) 1
      , offset := some (cond s1 (-1 : Int) 1 * digitsVal d1) }
      (cond s2 ['-'] []) =
      { pos := 0, mult := cond (s1 || s2) (-1 : Int) 1
      , offset := some (cond s1 (-1 : Int) 1 * digitsVal d1) } := by
    cases s1 <;> cases s2 <;> rfl
  rw [e3, line2_foldl_digits d2 hd2, foldl_sign_zero]

/-- Claim C1, amended: for a second line of the form
`[-]digits " " [-]digits`, `offset_from_prev` is the first integer with its
own sign (negative exactly when a `-` precedes its digits), but
`continue_for` is the nonnegative magnitude of the second integer regardless
of any `-`: the digits are accumulated with the sign flag already applied
and the final `pos * mult` (source line 238) multiplies by the flag again,
cancelling the sign. -/
theorem c1_signed_pair_parse :
    ∀ (l1 d1 d2 : List Char) (s1 s2 : Bool),
      (∀ c ∈ d1, isDigitChar c) → (∀ c ∈ d2, isDigitChar c) →
      (mismatch_of_pair l1 ((cond s1 ['-'] []) ++ d1 ++ [' '] ++
          (cond s2 ['-'] []) ++ d2)).offset_from_prev =
        some (cond s1 (-(digitsVal d1)) (digitsVal d1)) ∧
      (mismatch_of_pair l1 ((cond s1 ['-'] []) ++ d1 ++ [' '] ++
          (cond s2 ['-'] []) ++ d2)).continue_for = digitsVal d2 ∧
      0 ≤ digitsVal d2 := by
  intro l1 d1 d2 s1 s2 hd1 hd2
  have h := parse_line2_signed d1 d2 s1 s2 hd1 hd2
  refine ⟨?_, ?_, digitsVal_nonneg d2 hd2⟩
  · simp only [mismatch_of_pair, h]
    cases s1 <;> simp
  · simp only [mismatch_of_pair, h]
    cases s1 <;> cases s2 <;> simp

/-- Witness for `c1_signed_pair_parse` on the pair `("0", "5 -3")`. -/
theorem c1_signed_pair_parse_witness :
    (mismatch_of_pair ['0'] ((cond false ['-'] []) ++ ['5'] ++ [' '] ++
        (cond true ['-'] []) ++ ['3'])).offset_from_prev =
      some (cond false (-(digitsVal ['5'])) (digitsVal ['5'])) ∧
    (mismatch_of_pair ['0'] ((cond false ['-'] []) ++ ['5'] ++ [' '] ++
        (cond true ['-'] []) ++ ['3'])).continue_for = digitsVal ['3'] ∧
    0 ≤ digitsVal ['3'] :=
  c1_signed_pair_parse ['0'] ['5'] ['3'] false true (by decide) (by decide)

/-!  ## The special-character pass, characterized (claim C5) -/

theorem gapSum_shift (sc : List Int) :
    ∀ (m : Nat) (i : Int),
      gapSum sc i (m + 1) = intGetD sc i 0 + gapSum sc (i + 1) m := by
  intro m
  induction m with
  | zero => intro i; simp [gapSum]
  | succ m ih =>
    intro i
    have hidx : i + ((m + 1 : Nat) : Int) = (i + 1) + (m : Int) := by
      push_cast; ring
    calc gapSum sc i (m + 1 + 1)
        = gapSum sc i (m + 1) + intGetD sc (i + ((m + 1 : Nat) : Int)) 0 := rfl
      _ = intGetD sc i 0 + gapSum sc (i + 1) m +
            intGetD sc ((i + 1) + (m : Int)) 0 := by rw [ih, hidx]
      _ = intGetD sc i 0 + gapSum sc (i + 1) (m + 1) := by
            rw [gapSum]; ring

theorem positionsLoop_length (sc : List Int) :
    ∀ (n : Nat) (i pos : Int), (positionsLoop sc n i pos).length = n := by
  intro n
  induction n with
  | zero => intro i pos; rfl
  | succ n ih => intro i pos; simp [positionsLoop, ih]

theorem positionsLoop_getD (sc : List Int) :
    ∀ (n : Nat) (i pos : Int) (k : Nat), k < n →
      (positionsLoop sc n i pos).getD k 0 =
        pos + gapSum sc i (k + 1) + (k : Int) := by
  intro n
  induction n with
  | zero => intro i pos k hk; omega
  | succ n ih =>
    intro i pos k hk
    cases k with
    | zero =>
      simp [positionsLoop, gapSum]
    | succ k =>
      have hk' : k < n := by omega
      have := ih (i + 1) (pos + intGetD sc i 0 + 1) k hk'
      simp only [positionsLoop, List.getD_cons_succ]
      rw [this, gapSum_shift sc (k + 1) i]
      push_cast
      ring

theorem decodeLoop_length (sc : List Int) :
    ∀ (n : Nat) (i : Int), (decodeLoop sc n i).length = n := by
  intro n
  induction n with
  | zero => intro i; rfl
  | succ n ih => intro i; simp [decodeLoop, ih]

theorem decodeLoop_getD (sc : List Int) :
    ∀ (n : Nat) (i : Int) (k : Nat), k < n →
      (decodeLoop sc n i).getD k 'A' =
        Char.ofNat (intGetD sc (i + (k : Int)) 0 + 65).toNat := by
  intro n
  induction n with
  | zero => intro i k hk; omega
  | succ n ih =>
    intro i k hk
    cases k with
    | zero => simp [decodeLoop]
    | succ k =>
      have hk' : k < n := by omega
      have := ih (i + 1) k hk'
      simp only [decodeLoop, List.getD_cons_succ]
      rw [this]
      have hidx : (i + 1) + (k : Int) = i + ((k + 1 : Nat) : Int) := by
        push_cast; ring
      rw [hidx]

/-- Claim C5, status confirmed: for a special-character list with positive
count, `add_special_characters` is the left-to-right insertion loop applied
to the positions and the decoded dictionary, where the positions satisfy
`pos_0 = gap_1` and `pos_i = pos_{i-1} + gap_{i+1} + 1` (gaps are the
entries `special_chars[1..count]`), the dictionary entries are
`special_chars[count+2+j] + 'A'`, and each step of the insertion loop
inserts `dictionary[order[i]]` at `positions[i]` into the current
sequence. -/
theorem c5_special_pass :
    ∀ (sc ord : List Int) (seq : List Char),
      0 < intGetD sc 0 0 →
      (add_special_characters sc ord seq =
          insertLoop (special_positions sc) (special_dictionary sc) ord 0 seq)
      ∧ (special_positions sc).length = (intGetD sc 0 0).toNat
      ∧ (special_positions sc).getD 0 0 = intGetD sc 1 0
      ∧ (∀ k : Nat, k + 1 < (intGetD sc 0 0).toNat →
          (special_positions sc).getD (k + 1) 0 =
            (special_positions sc).getD k 0 + intGetD sc ((k : Int) + 2) 0 + 1)
      ∧ (special_dictionary sc).length =
          (intGetD sc (intGetD sc 0 0 + 1) 0).toNat
      ∧ (∀ k : Nat, k < (intGetD sc (intGetD sc 0 0 + 1) 0).toNat →
          (special_dictionary sc).getD k 'A' =
            Char.ofNat (intGetD sc (intGetD sc 0 0 + 2 + (k : Int)) 0 + 65).toNat)
      ∧ (∀ (ps : List Int) (dict : List Char) (o : Int) (os : List Int)
            (i : Nat) (s : List Char),
          insertLoop ps dict (o :: os) i s =
            insertLoop ps dict os (i + 1)
              (listInsert s (ps.getD i 0) (intGetD dict o 'A'))) := by
  intro sc ord seq h
  refine ⟨?_, positionsLoop_length sc _ 1 0, ?_, ?_, decodeLoop_length sc _ _,
    ?_, fun ps dict o os i s => rfl⟩
  · simp only [add_special_characters]
    rw [if_neg (by omega)]
  · have h0 := positionsLoop_getD sc (intGetD sc 0 0).toNat 1 0 0 (by omega)
    simp only [special_positions]
    rw [h0]
    simp [gapSum]
  · intro k hk
    have h1 := positionsLoop_getD sc (intGetD sc 0 0).toNat 1 0 (k + 1) hk
    have h2 := positionsLoop_getD sc (intGetD sc 0 0).toNat 1 0 k (by omega)
    simp only [special_positions]
    rw [h1, h2]
    have hs : gapSum sc 1 (k + 1 + 1) =
        gapSum sc 1 (k + 1) + intGetD sc (1 + ((k + 1 : Nat) : Int)) 0 := rfl
    have hidx : (1 : Int) + ((k + 1 : Nat) : Int) = (k : Int) + 2 := by
      push_cast; ring
    rw [hs, hidx]
    push_cast
    ring
  · intro k hk
    have := decodeLoop_getD sc (intGetD sc (intGetD sc 0 0 + 1) 0).toNat
      (intGetD sc 0 0 + 2) k hk
    simpa [special_dictionary] using this

/-- Witness for `c5_special_pass` on the list `[1, 2, 1, 13]`
(count 1, gap 2, one dictionary entry `'N'`) and the sequence `"ACGT"`. -/
theorem c5_special_pass_witness :
    add_special_characters [1, 2, 1, 13] [0] ['A', 'C', 'G', 'T'] =
      insertLoop (special_positions [1, 2, 1, 13])
        (special_dictionary [1, 2, 1, 13]) [0] 0 ['A', 'C', 'G', 'T'] :=
  (c5_special_pass [1, 2, 1, 13] [0] ['A', 'C', 'G', 'T'] (by decide)).1

end Hirgc
